import Mathlib

/-!
Verification of the appbase plugin framework
(src/include/appbase/application.hpp, src/unnamed/part_000 = plugin.hpp).

The embedding is shallow and executable:

* plugin identities (the demangled type names used as keys by the
  application) are numbers;
* the static dependency declaration of each plugin
  (APPBASE_PLUGIN_REQUIRES / plugin_requires) is a function
  deps : Nat -> List Nat;
* the per-plugin lifecycle state machine of plugin<Impl> in
  application.hpp is modelled by a state table plus append-only logs
  mirroring application::initialized_plugins / running_plugins, and an
  event trace recording state changes, user hook invocations
  (plugin_initialize / plugin_startup / plugin_shutdown) and the
  notifications plugin_initialized / plugin_started;
* the C assert at the end of plugin::initialize and plugin::startup is
  modelled by a sticky assertFail flag (an assert failure aborts the
  process in a debug build; the flag records that the abort fired);
* recursion through the dependency graph is modelled with explicit fuel,
  returning none when the fuel runs out, so termination statements become
  statements that enough fuel yields some result.
-/

namespace Appbase

/-- Lifecycle states, from abstract_plugin::state in plugin.hpp:
registered, initialized, started, stopped. -/
inductive PState
  | registered
  | initialized
  | started
  | stopped
deriving DecidableEq, Repr

/-- Observable events of a run: a plugin's _state assignment, the three
user hooks, and the notifications the plugin sends to the application. -/
inductive Event
  | stateChange (p : Nat) (s : PState)
  | initHook (p : Nat)
  | startupHook (p : Nat)
  | shutdownHook (p : Nat)
  | notifyInitialized (p : Nat)
  | notifyStarted (p : Nat)
deriving DecidableEq, Repr

/-- The mutable state relevant to the lifecycle: each plugin's _state
(absent entries stand for the construction default registered),
application::initialized_plugins, application::running_plugins, the
event trace, and the sticky assertion-failure flag. -/
structure LifeState where
  st : List (Nat × PState)
  initialized_plugins : List Nat
  running_plugins : List Nat
  trace : List Event
  assertFail : Bool
deriving DecidableEq, Repr

/-- Read a plugin's _state; plugins are constructed with
_state = abstract_plugin::registered (application.hpp line 266). -/
def stLookup : List (Nat × PState) → Nat → PState
  | [], _ => .registered
  | e :: rest, p => if p = e.1 then e.2 else stLookup rest p

/-- Write a plugin's _state. -/
def stSet : List (Nat × PState) → Nat → PState → List (Nat × PState)
  | [], p, s => [(p, s)]
  | e :: rest, p, s => if p = e.1 then (p, s) :: rest else e :: stSet rest p s

/-- Sequentially apply a fallible operation to a list of plugins,
threading the state: this is the shape of the visitor expansion of
BOOST_PP_SEQ_FOR_EACH in APPBASE_PLUGIN_REQUIRES (plugin.hpp lines 8-23)
and of the loops the application runs over plugin lists. -/
def seqRun (f : Nat → LifeState → Option LifeState) : List Nat → LifeState → Option LifeState
  | [], σ => some σ
  | p :: ps, σ =>
    match f p σ with
    | none => none
    | some σ' => seqRun f ps σ'

/-- Model of the C assert(_state == s) at the end of plugin::initialize
(line 232) and plugin::startup (line 248): when the condition fails the
debug build aborts, recorded by the sticky assertFail flag. -/
def checkAssert (σ : LifeState) (p : Nat) (s : PState) : LifeState :=
  if stLookup σ.st p = s then σ else { σ with assertFail := true }

/-- The two recursive lifecycle transitions of plugin<Impl> share one
shape; the phase selects between initialize and startup. -/
inductive Phase
  | init
  | start
deriving DecidableEq, Repr

/-- Guard state of the transition: registered for initialize
(line 221), initialized for startup (line 238). -/
def phaseEntry : Phase → PState
  | .init => .registered
  | .start => .initialized

/-- State assigned by the transition: initialized (line 222),
started (line 239). -/
def phaseTarget : Phase → PState
  | .init => .initialized
  | .start => .started

/-- The user hook the transition runs: plugin_initialize (line 227),
plugin_startup (line 244). -/
def phaseHook : Phase → Nat → Event
  | .init, p => .initHook p
  | .start, p => .startupHook p

/-- The notification sent to the application:
app().plugin_initialized(*this) appends to initialized_plugins
(line 164), app().plugin_started(*this) appends to running_plugins
(line 165). -/
def phaseNotify (ph : Phase) (σ : LifeState) (p : Nat) : LifeState :=
  match ph with
  | .init => { σ with initialized_plugins := σ.initialized_plugins ++ [p],
                      trace := σ.trace ++ [.notifyInitialized p] }
  | .start => { σ with running_plugins := σ.running_plugins ++ [p],
                       trace := σ.trace ++ [.notifyStarted p] }

/-- The order log the phase appends to. -/
def phaseOrder (ph : Phase) (σ : LifeState) : List Nat :=
  match ph with
  | .init => σ.initialized_plugins
  | .start => σ.running_plugins

/-- plugin<Impl>::initialize (application.hpp lines 219-233) and
plugin<Impl>::startup (lines 236-249), which have the same structure:

    if (_state == entry) {
       _state = target;                                  -- state first
       plugin_requires([&](auto& plug){ plug.op(...); }); -- dependencies
       plugin_op(...);                                   -- own hook
       app().plugin_op_done(*this);                      -- notify/append
    }
    assert(_state == target);

Fuel bounds the recursion depth; none means the bound was exceeded. -/
def transOne (deps : Nat → List Nat) (ph : Phase) : Nat → Nat → LifeState → Option LifeState
  | 0, _, _ => none
  | fuel + 1, p, σ =>
    if stLookup σ.st p = phaseEntry ph then
      let σ1 : LifeState :=
        { σ with st := stSet σ.st p (phaseTarget ph),
                 trace := σ.trace ++ [.stateChange p (phaseTarget ph)] }
      match seqRun (transOne deps ph fuel) (deps p) σ1 with
      | none => none
      | some σ2 =>
        let σ3 : LifeState := { σ2 with trace := σ2.trace ++ [phaseHook ph p] }
        some (checkAssert (phaseNotify ph σ3 p) p (phaseTarget ph))
    else
      some (checkAssert σ p (phaseTarget ph))

/-- plugin<Impl>::initialize. -/
def initOne (deps : Nat → List Nat) : Nat → Nat → LifeState → Option LifeState :=
  transOne deps .init

/-- plugin<Impl>::startup. -/
def startupOne (deps : Nat → List Nat) : Nat → Nat → LifeState → Option LifeState :=
  transOne deps .start

/-- plugin<Impl>::shutdown (application.hpp lines 252-260): if started,
assign stopped and run plugin_shutdown; otherwise do nothing.  No
recursion into dependencies, no notification, no assertion. -/
def shutdownOne (p : Nat) (σ : LifeState) : LifeState :=
  if stLookup σ.st p = .started then
    { σ with st := stSet σ.st p .stopped,
             trace := σ.trace ++ [.stateChange p .stopped, .shutdownHook p] }
  else σ

/-- Modelled from the spec: application::initialize_impl's plugin loop.
Its body lives in application.cpp, which is not under src/; per spec
section 4.3, initialize_all(explicit_set) invokes plugin initialize on
each explicitly requested plugin in turn. -/
def initAll (deps : Nat → List Nat) (fuel : Nat) (autostart : List Nat)
    (σ : LifeState) : Option LifeState :=
  seqRun (initOne deps fuel) autostart σ

/-- Modelled from the spec: application::startup.  Its body lives in
application.cpp, which is not under src/; per spec section 4.3,
startup_all invokes startup on every plugin that was initialized, in the
order recorded by initialized_order. -/
def startupAll (deps : Nat → List Nat) (fuel : Nat) (σ : LifeState) : Option LifeState :=
  seqRun (startupOne deps fuel) σ.initialized_plugins σ

/-- Modelled from the spec: application::shutdown.  Its body lives in
application.cpp, which is not under src/; per spec section 4.3,
shutdown_all invokes shutdown on every plugin in started_order,
traversed back-to-front. -/
def shutdownAll (σ : LifeState) : LifeState :=
  σ.running_plugins.reverse.foldl (fun s p => shutdownOne p s) σ

/-- The plugins whose plugin_shutdown hook ran, in firing order. -/
def shutdownHookOrder (t : List Event) : List Nat :=
  t.filterMap (fun e =>
    match e with
    | .shutdownHook p => some p
    | _ => none)

/-- x occurs strictly before y: the first occurrence of x precedes an
occurrence of y. -/
def occursBefore {α : Type} [DecidableEq α] (x y : α) : List α → Bool
  | [] => false
  | z :: rest =>
    if z = x then decide (y ∈ rest)
    else if z = y then false
    else occursBefore x y rest

/-- State of a freshly constructed application: no plugin past
registered, empty logs. -/
def freshState : LifeState :=
  { st := [], initialized_plugins := [], running_plugins := [],
    trace := [], assertFail := false }

/-! ### The plugin registry (application::register_plugin) -/

/-- Registry state: application::plugins as a key-to-instance map (keys
are the type-derived names, values are instance identities), the _state
member each constructed instance starts with, and the allocation counter
that makes instance identities (addresses) distinct. -/
structure RegState where
  plugins : List (Nat × Nat)
  states : List (Nat × PState)
  nextId : Nat
deriving DecidableEq, Repr

/-- Lookup in a key-value list; first match wins, as in std::map with
unique keys. -/
def lookupKey : List (Nat × Nat) → Nat → Option Nat
  | [], _ => none
  | e :: rest, t => if t = e.1 then some e.2 else lookupKey rest t

/-- Register each dependency in turn, discarding the returned reference:
the expansion of register_dependencies (application.hpp line 214-216)
via APPBASE_PLUGIN_REQUIRES_VISIT with a do-nothing visitor. -/
def regSeq (f : Nat → RegState → Option (RegState × Nat)) : List Nat → RegState → Option RegState
  | [], σ => some σ
  | t :: ts, σ =>
    match f t σ with
    | none => none
    | some (σ', _) => regSeq f ts σ'

/-- application::register_plugin (application.hpp lines 83-97): if the
plugin type is already present return the existing instance; otherwise
construct a new instance (state registered), insert it into the map,
then register its declared dependencies, and return the new instance. -/
def register_plugin (regDeps : Nat → List Nat) : Nat → Nat → RegState → Option (RegState × Nat)
  | 0, _, _ => none
  | fuel + 1, t, σ =>
    match lookupKey σ.plugins t with
    | some i => some (σ, i)
    | none =>
      let i := σ.nextId
      let σ1 : RegState :=
        { plugins := σ.plugins ++ [(t, i)],
          states := σ.states ++ [(t, .registered)],
          nextId := σ.nextId + 1 }
      match regSeq (register_plugin regDeps fuel) (regDeps t) σ1 with
      | none => none
      | some σ2 => some (σ2, i)

/-- Registry of a freshly constructed application. -/
def freshReg : RegState := { plugins := [], states := [], nextId := 0 }

/-! ### Declaration-keyed method / channel registries -/

/-- application::methods and application::channels: maps from a
declaration token (std::type_index of the declaration type) to the
type-erased communication object, plus the allocation counter that makes
object identities distinct. -/
structure MCState where
  methods : List (Nat × Nat)
  channels : List (Nat × Nat)
  nextObj : Nat
deriving DecidableEq, Repr

/-- application::get_method (application.hpp lines 118-130): return the
object stored under the declaration token, constructing and inserting it
on first access. -/
def get_method (σ : MCState) (t : Nat) : MCState × Nat :=
  match lookupKey σ.methods t with
  | some m => (σ, m)
  | none =>
    ({ σ with methods := σ.methods ++ [(t, σ.nextObj)], nextObj := σ.nextObj + 1 },
     σ.nextObj)

/-- application::get_channel (application.hpp lines 139-151): same
find-or-create shape on the channels map. -/
def get_channel (σ : MCState) (t : Nat) : MCState × Nat :=
  match lookupKey σ.channels t with
  | some c => (σ, c)
  | none =>
    ({ σ with channels := σ.channels ++ [(t, σ.nextObj)], nextObj := σ.nextObj + 1 },
     σ.nextObj)

/-- Method/channel registries of a freshly constructed application. -/
def freshMC : MCState := { methods := [], channels := [], nextObj := 0 }

/-! ### Derived definitions used by the statements -/

/-- The order log of the phase the transition does NOT belong to. -/
def phaseOther (ph : Phase) (σ : LifeState) : List Nat :=
  match ph with
  | .init => σ.running_plugins
  | .start => σ.initialized_plugins

/-- Facts valid of every completed transition call, relating the state
before to the state after: the order log only grows; a plugin's state
either is unchanged or steps from the phase's entry state to its target
state; a plugin that made that step was appended to the order log; every
newly appended plugin made that step; the other phase's log is
untouched. -/
def BasicSeq (ph : Phase) (σ σ' : LifeState) : Prop :=
  (∃ Δ, phaseOrder ph σ' = phaseOrder ph σ ++ Δ)
  ∧ (∀ q, stLookup σ'.st q = stLookup σ.st q
      ∨ (stLookup σ.st q = phaseEntry ph ∧ stLookup σ'.st q = phaseTarget ph))
  ∧ (∀ q, stLookup σ.st q = phaseEntry ph → stLookup σ'.st q = phaseTarget ph →
      q ∈ phaseOrder ph σ')
  ∧ (∀ q, q ∈ phaseOrder ph σ' → q ∈ phaseOrder ph σ
      ∨ (stLookup σ.st q = phaseEntry ph ∧ stLookup σ'.st q = phaseTarget ph))
  ∧ phaseOther ph σ' = phaseOther ph σ

/-- Number of plugins among 0..n-1 whose state is s: the measure showing
the recursion depth of the guarded traversal is bounded. -/
def stCount (s : PState) (st : List (Nat × PState)) : Nat → Nat
  | 0 => 0
  | n + 1 => stCount s st n + (if stLookup st n = s then 1 else 0)

/-- Number of plugin types among 0..n-1 not yet in the registry map: the
measure showing register_plugin's recursion is bounded. -/
def unregCount (pl : List (Nat × Nat)) : Nat → Nat
  | 0 => 0
  | n + 1 => unregCount pl n + (if lookupKey pl n = none then 1 else 0)

/-- Well-formedness of the method/channel registries: every stored
object identity was allocated below the counter, and no two entries
share an object identity.  Holds of the fresh registries and is
preserved by every access. -/
def MCWf (σ : MCState) : Prop :=
  (∀ e ∈ σ.methods, e.2 < σ.nextObj) ∧ (σ.methods.map Prod.snd).Nodup
  ∧ (∀ e ∈ σ.channels, e.2 < σ.nextObj) ∧ (σ.channels.map Prod.snd).Nodup

/-! ### Concrete inputs used by counterexamples and witnesses -/

/-- A plugin with no declared dependencies. -/
def noDeps : Nat → List Nat := fun _ => []

/-- Cyclic declaration: plugin 0 requires plugin 1 and vice versa. -/
def cycDeps : Nat → List Nat := fun n => if n = 0 then [1] else if n = 1 then [0] else []

/-- Acyclic declaration: plugin 0 requires plugin 1. -/
def chainDeps : Nat → List Nat := fun n => if n = 0 then [1] else []

/-- Topological rank witnessing that chainDeps is acyclic. -/
def chainRank : Nat → Nat := fun n => if n = 0 then 1 else 0

/-- A state in which plugin 0 is already started. -/
def startedOnly : LifeState := { freshState with st := [(0, .started)] }

/-- A state in which plugin 0 is already initialized. -/
def initializedOnly : LifeState := { freshState with st := [(0, .initialized)] }

/-- A state in which plugin 0 is already stopped. -/
def stoppedOnly : LifeState := { freshState with st := [(0, .stopped)] }

/-- Result of initializing the dependency-free plugin 0. -/
def soloInitResult : LifeState := (initOne noDeps 2 0 freshState).getD freshState

/-- Result of initialize_all({0}) on the chain 0 -> 1. -/
def chainInitResult : LifeState := (initAll chainDeps 3 [0] freshState).getD freshState

/-- Result of startup_all after chainInitResult. -/
def chainStartResult : LifeState := (startupAll chainDeps 3 chainInitResult).getD freshState

/-- Result of initialize_all({0}) on the cycle 0 <-> 1. -/
def cycInitResult : LifeState := (initAll cycDeps 3 [0] freshState).getD freshState

/-- Result of startup_all after cycInitResult. -/
def cycStartResult : LifeState := (startupAll cycDeps 3 cycInitResult).getD freshState

/-- A state with plugins 1 and 0 started in that order. -/
def twoStartedState : LifeState :=
  { st := [(0, .started), (1, .started)], initialized_plugins := [1, 0],
    running_plugins := [1, 0], trace := [], assertFail := false }

/-- Registry after registering plugin 0 of the cyclic pair. -/
def cycRegResult : RegState :=
  ((register_plugin cycDeps 3 0 freshReg).map Prod.fst).getD freshReg

/-! ## Helper lemmas -/

theorem phaseEntry_ne_phaseTarget (ph : Phase) : phaseEntry ph ≠ phaseTarget ph := by
  cases ph <;> decide

theorem stLookup_stSet_self (l : List (Nat × PState)) (p : Nat) (s : PState) :
    stLookup (stSet l p s) p = s := by
  induction l with
  | nil => simp [stSet, stLookup]
  | cons e rest ih =>
    by_cases h : p = e.1
    · simp [stSet, stLookup, h]
    · simp [stSet, stLookup, h, ih]

theorem stLookup_stSet_ne (l : List (Nat × PState)) (p q : Nat) (s : PState)
    (h : q ≠ p) : stLookup (stSet l p s) q = stLookup l q := by
  induction l with
  | nil => simp [stSet, stLookup, h]
  | cons e rest ih =>
    by_cases hp : p = e.1
    · subst hp
      simp [stSet, stLookup, h]
    · by_cases hq : q = e.1
      · simp [stSet, stLookup, hp, hq]
      · simp [stSet, stLookup, hp, hq, ih]

theorem occursBefore_append_left {α : Type} [DecidableEq α] (x y : α) (l m : List α)
    (h : occursBefore x y l = true) : occursBefore x y (l ++ m) = true := by
  induction l with
  | nil => simp [occursBefore] at h
  | cons z rest ih =>
    by_cases hx : z = x
    · simp [occursBefore, hx] at h ⊢
      exact Or.inl h
    · by_cases hy : z = y
      · simp [occursBefore, hx, hy] at h
        exact absurd (hy.trans h.1) hx
      · simp [occursBefore, hx, hy] at h ⊢
        exact ih h

theorem occursBefore_append_self {α : Type} [DecidableEq α] (x y : α) (l : List α)
    (hx : x ∈ l) (hy : y ∉ l) : occursBefore x y (l ++ [y]) = true := by
  induction l with
  | nil => simp at hx
  | cons z rest ih =>
    by_cases hzx : z = x
    · simp [occursBefore, hzx]
    · have hzy : ¬ z = y := by
        intro hz
        exact hy (hz ▸ List.mem_cons_self z rest)
      have hx' : x ∈ rest := by
        cases List.mem_cons.mp hx with
        | inl h => exact absurd h.symm hzx
        | inr h => exact h
      have hy' : y ∉ rest := fun h => hy (List.mem_cons_of_mem z h)
      simp [occursBefore, hzx, hzy]
      exact ih hx' hy'

theorem occursBefore_mem {α : Type} [DecidableEq α] (x y : α) (l : List α)
    (h : occursBefore x y l = true) : x ∈ l ∧ y ∈ l := by
  induction l with
  | nil => simp [occursBefore] at h
  | cons z rest ih =>
    by_cases hx : z = x
    · simp [occursBefore, hx] at h
      exact ⟨by simp [hx], List.mem_cons_of_mem z h⟩
    · by_cases hy : z = y
      · simp [occursBefore, hx, hy] at h
        exact absurd (hy.trans h.1) hx
      · simp [occursBefore, hx, hy] at h
        exact ⟨List.mem_cons_of_mem z (ih h).1, List.mem_cons_of_mem z (ih h).2⟩

/-! ## C5: transitions past the entry state -/

/-- C5 (amended): initialize is a silent no-op exactly when the state is
already initialized, startup exactly when already started, and shutdown
whenever the state is anything but started; but initialize on a started
or stopped plugin and startup on a registered or stopped plugin, while
leaving the state unchanged and running no hooks, fail the closing
debug assertion (abort) instead of being silent no-ops. -/
theorem transition_past_entry (deps : Nat → List Nat) (fuel p : Nat) (σ : LifeState) :
    (stLookup σ.st p = .initialized → initOne deps (fuel + 1) p σ = some σ)
    ∧ (stLookup σ.st p = .started → startupOne deps (fuel + 1) p σ = some σ)
    ∧ (stLookup σ.st p ≠ .started → shutdownOne p σ = σ)
    ∧ ((stLookup σ.st p = .started ∨ stLookup σ.st p = .stopped) →
        initOne deps (fuel + 1) p σ = some { σ with assertFail := true })
    ∧ ((stLookup σ.st p = .registered ∨ stLookup σ.st p = .stopped) →
        startupOne deps (fuel + 1) p σ = some { σ with assertFail := true }) := by
  refine ⟨fun h => ?_, fun h => ?_, fun h => ?_, fun h => ?_, fun h => ?_⟩
  · simp [initOne, transOne, phaseEntry, phaseTarget, h, checkAssert]
  · simp [startupOne, transOne, phaseEntry, phaseTarget, h, checkAssert]
  · simp [shutdownOne, h]
  · cases h with
    | inl h => simp [initOne, transOne, phaseEntry, phaseTarget, h, checkAssert]
    | inr h => simp [initOne, transOne, phaseEntry, phaseTarget, h, checkAssert]
  · cases h with
    | inl h => simp [startupOne, transOne, phaseEntry, phaseTarget, h, checkAssert]
    | inr h => simp [startupOne, transOne, phaseEntry, phaseTarget, h, checkAssert]

/-- C5 counterexample: invoking initialize on a plugin that is already
started is not a silent no-op: the closing assert(_state == initialized)
fails (the flag flips from false to true), contradicting the claim that
such a call is a no-op and not an error. -/
theorem transition_past_entry_counterexample :
    initOne noDeps 1 0 startedOnly = some { startedOnly with assertFail := true }
    ∧ startedOnly.assertFail = false := by
  exact ⟨by decide, by decide⟩

/-- Witness for transition_past_entry at concrete states. -/
theorem transition_past_entry_witness :
    (initOne noDeps 1 0 initializedOnly = some initializedOnly)
    ∧ (startupOne noDeps 1 0 startedOnly = some startedOnly)
    ∧ (shutdownOne 0 initializedOnly = initializedOnly)
    ∧ (initOne noDeps 1 0 stoppedOnly = some { stoppedOnly with assertFail := true })
    ∧ (startupOne noDeps 1 0 stoppedOnly = some { stoppedOnly with assertFail := true }) :=
  ⟨(transition_past_entry noDeps 0 0 initializedOnly).1 (by decide),
   (transition_past_entry noDeps 0 0 startedOnly).2.1 (by decide),
   (transition_past_entry noDeps 0 0 initializedOnly).2.2.1 (by decide),
   (transition_past_entry noDeps 0 0 stoppedOnly).2.2.2.1 (Or.inr (by decide)),
   (transition_past_entry noDeps 0 0 stoppedOnly).2.2.2.2 (Or.inr (by decide))⟩

/-! ## C6: startup on a registered plugin asserts -/

/-- C6: invoking startup on a plugin still in state registered leaves
the state unchanged, runs no hooks, and fails the closing
assert(_state == started): in a debug build the process aborts rather
than silently continuing. -/
theorem startup_on_registered_asserts (deps : Nat → List Nat) (fuel p : Nat)
    (σ : LifeState) (h : stLookup σ.st p = .registered) :
    startupOne deps (fuel + 1) p σ = some { σ with assertFail := true } := by
  simp [startupOne, transOne, phaseEntry, phaseTarget, h, checkAssert]

/-- Witness for startup_on_registered_asserts. -/
theorem startup_on_registered_asserts_witness :
    startupOne noDeps 1 0 freshState = some { freshState with assertFail := true } :=
  startup_on_registered_asserts noDeps 0 0 freshState (by decide)

/-! ## C10: shutdown on a non-started plugin is silent -/

/-- C10: invoking shutdown on a plugin whose state is not started
(registered, initialized or stopped) returns the state entirely
unchanged: no state change, no plugin_shutdown hook, and no assertion
fires, since plugin::shutdown carries no assert. -/
theorem shutdown_not_started_noop (p : Nat) (σ : LifeState)
    (h : stLookup σ.st p ≠ .started) : shutdownOne p σ = σ := by
  simp [shutdownOne, h]

/-- Witness for shutdown_not_started_noop. -/
theorem shutdown_not_started_noop_witness :
    shutdownOne 0 initializedOnly = initializedOnly :=
  shutdown_not_started_noop 0 initializedOnly (by decide)

/-! ## Field lemmas for the lifecycle operations -/

theorem phaseOrder_notify (ph : Phase) (σ : LifeState) (p : Nat) :
    phaseOrder ph (phaseNotify ph σ p) = phaseOrder ph σ ++ [p] := by
  cases ph <;> rfl

theorem phaseOther_notify (ph : Phase) (σ : LifeState) (p : Nat) :
    phaseOther ph (phaseNotify ph σ p) = phaseOther ph σ := by
  cases ph <;> rfl

theorem st_notify (ph : Phase) (σ : LifeState) (p : Nat) :
    (phaseNotify ph σ p).st = σ.st := by
  cases ph <;> rfl

theorem st_checkAssert (σ : LifeState) (p : Nat) (s : PState) :
    (checkAssert σ p s).st = σ.st := by
  unfold checkAssert
  split <;> rfl

theorem phaseOrder_checkAssert (ph : Phase) (σ : LifeState) (p : Nat) (s : PState) :
    phaseOrder ph (checkAssert σ p s) = phaseOrder ph σ := by
  unfold checkAssert
  split <;> cases ph <;> rfl

theorem phaseOther_checkAssert (ph : Phase) (σ : LifeState) (p : Nat) (s : PState) :
    phaseOther ph (checkAssert σ p s) = phaseOther ph σ := by
  unfold checkAssert
  split <;> cases ph <;> rfl

theorem phaseOrder_traceAppend (ph : Phase) (σ : LifeState) (t : List Event) :
    phaseOrder ph { σ with trace := σ.trace ++ t } = phaseOrder ph σ := by
  cases ph <;> rfl

theorem phaseOther_traceAppend (ph : Phase) (σ : LifeState) (t : List Event) :
    phaseOther ph { σ with trace := σ.trace ++ t } = phaseOther ph σ := by
  cases ph <;> rfl

/-! ## Basic invariants of the recursive transitions -/

theorem basicSeq_refl (ph : Phase) (σ : LifeState) : BasicSeq ph σ σ :=
  ⟨⟨[], by simp⟩, fun _ => Or.inl rfl,
   fun _ h1 h2 => absurd (h1.symm.trans h2) (phaseEntry_ne_phaseTarget ph),
   fun _ hq => Or.inl hq, rfl⟩

theorem basicSeq_of_fields (ph : Phase) (σ σ' : LifeState)
    (h1 : phaseOrder ph σ' = phaseOrder ph σ) (h2 : σ'.st = σ.st)
    (h3 : phaseOther ph σ' = phaseOther ph σ) : BasicSeq ph σ σ' :=
  ⟨⟨[], by simp [h1]⟩, fun q => Or.inl (by rw [h2]),
   fun q hq1 hq2 => absurd (hq1.symm.trans (by rw [← h2]; exact hq2))
     (phaseEntry_ne_phaseTarget ph),
   fun q hq => Or.inl (h1 ▸ hq), h3⟩

theorem basicSeq_trans (ph : Phase) (σ1 σ2 σ3 : LifeState)
    (h12 : BasicSeq ph σ1 σ2) (h23 : BasicSeq ph σ2 σ3) : BasicSeq ph σ1 σ3 := by
  obtain ⟨⟨Δ1, hΔ1⟩, hst12, htr12, hmem12, hoth12⟩ := h12
  obtain ⟨⟨Δ2, hΔ2⟩, hst23, htr23, hmem23, hoth23⟩ := h23
  refine ⟨⟨Δ1 ++ Δ2, by rw [hΔ2, hΔ1, List.append_assoc]⟩, ?_, ?_, ?_, hoth23.trans hoth12⟩
  · intro q
    cases hst23 q with
    | inl hs23 =>
      cases hst12 q with
      | inl hs12 => exact Or.inl (hs23.trans hs12)
      | inr ht12 => exact Or.inr ⟨ht12.1, hs23.trans ht12.2⟩
    | inr ht23 =>
      cases hst12 q with
      | inl hs12 => exact Or.inr ⟨hs12.symm.trans ht23.1, ht23.2⟩
      | inr ht12 =>
        exact absurd (ht12.2.symm.trans ht23.1) (Ne.symm (phaseEntry_ne_phaseTarget ph))
  · intro q h1 h3
    cases hst12 q with
    | inl hs12 => exact htr23 q (hs12.trans h1) h3
    | inr ht12 =>
      have hq2 := htr12 q h1 ht12.2
      rw [hΔ2]
      exact List.mem_append_left _ hq2
  · intro q hq3
    cases hmem23 q hq3 with
    | inl hq2 =>
      cases hmem12 q hq2 with
      | inl hq1 => exact Or.inl hq1
      | inr ht =>
        cases hst23 q with
        | inl same => exact Or.inr ⟨ht.1, same.trans ht.2⟩
        | inr tr =>
          exact absurd (ht.2.symm.trans tr.1) (Ne.symm (phaseEntry_ne_phaseTarget ph))
    | inr ht =>
      cases hst12 q with
      | inl same => exact Or.inr ⟨same.symm.trans ht.1, ht.2⟩
      | inr tr =>
        exact absurd (tr.2.symm.trans ht.1) (Ne.symm (phaseEntry_ne_phaseTarget ph))

theorem seqRun_basic_aux (deps : Nat → List Nat) (ph : Phase) (f : Nat)
    (hQ : ∀ p σ σ', transOne deps ph f p σ = some σ' → BasicSeq ph σ σ') :
    ∀ ps (σ σ' : LifeState), seqRun (transOne deps ph f) ps σ = some σ' →
      BasicSeq ph σ σ' := by
  intro ps
  induction ps with
  | nil =>
    intro σ σ' h
    simp [seqRun] at h
    exact h ▸ basicSeq_refl ph σ
  | cons p rest ih =>
    intro σ σ' h
    simp only [seqRun] at h
    cases hc : transOne deps ph f p σ with
    | none => rw [hc] at h; cases h
    | some σm =>
      rw [hc] at h
      exact basicSeq_trans ph σ σm σ' (hQ p σ σm hc) (ih σm σ' h)

/-- One completed call of the recursive transition satisfies the basic
invariants, and when the guard was open (state = entry) the plugin ends
in the target state and on the order log. -/
theorem transOne_basic (deps : Nat → List Nat) (ph : Phase) :
    ∀ f p (σ σ' : LifeState), transOne deps ph f p σ = some σ' →
      BasicSeq ph σ σ'
      ∧ (stLookup σ.st p = phaseEntry ph →
          stLookup σ'.st p = phaseTarget ph ∧ p ∈ phaseOrder ph σ') := by
  intro f
  induction f with
  | zero => intro p σ σ' h; simp [transOne] at h
  | succ f ih =>
    intro p σ σ' h
    have hunf : transOne deps ph (f + 1) p σ =
        (if stLookup σ.st p = phaseEntry ph then
          match seqRun (transOne deps ph f) (deps p)
              { σ with st := stSet σ.st p (phaseTarget ph),
                       trace := σ.trace ++ [.stateChange p (phaseTarget ph)] } with
          | none => none
          | some σ2 =>
            some (checkAssert
              (phaseNotify ph { σ2 with trace := σ2.trace ++ [phaseHook ph p] } p)
              p (phaseTarget ph))
        else some (checkAssert σ p (phaseTarget ph))) := rfl
    by_cases hp : stLookup σ.st p = phaseEntry ph
    · rw [hunf, if_pos hp] at h
      cases hs : seqRun (transOne deps ph f) (deps p)
          { σ with st := stSet σ.st p (phaseTarget ph),
                   trace := σ.trace ++ [.stateChange p (phaseTarget ph)] } with
      | none => rw [hs] at h; cases h
      | some σ2 =>
        rw [hs] at h
        have hσ' : checkAssert
            (phaseNotify ph { σ2 with trace := σ2.trace ++ [phaseHook ph p] } p)
            p (phaseTarget ph) = σ' := Option.some.inj h
        obtain ⟨⟨Δ, hΔ⟩, hst, htr, hmem, hoth⟩ :=
          seqRun_basic_aux deps ph f (fun p σ σ' hh => (ih p σ σ' hh).1) (deps p) _ σ2 hs
        have hordσ' : phaseOrder ph σ' = phaseOrder ph σ2 ++ [p] := by
          rw [← hσ', phaseOrder_checkAssert, phaseOrder_notify, phaseOrder_traceAppend]
        have hstσ' : σ'.st = σ2.st := by
          rw [← hσ', st_checkAssert, st_notify]
        have hothσ' : phaseOther ph σ' = phaseOther ph σ2 := by
          rw [← hσ', phaseOther_checkAssert, phaseOther_notify, phaseOther_traceAppend]
        have hord1 : phaseOrder ph
            { σ with st := stSet σ.st p (phaseTarget ph),
                     trace := σ.trace ++ [.stateChange p (phaseTarget ph)] }
            = phaseOrder ph σ := by cases ph <;> rfl
        have hoth1 : phaseOther ph
            { σ with st := stSet σ.st p (phaseTarget ph),
                     trace := σ.trace ++ [.stateChange p (phaseTarget ph)] }
            = phaseOther ph σ := by cases ph <;> rfl
        have hst1p : stLookup (stSet σ.st p (phaseTarget ph)) p = phaseTarget ph :=
          stLookup_stSet_self σ.st p (phaseTarget ph)
        have hst1ne : ∀ q, q ≠ p →
            stLookup (stSet σ.st p (phaseTarget ph)) q = stLookup σ.st q :=
          fun q hq => stLookup_stSet_ne σ.st p q (phaseTarget ph) hq
        have hst2p : stLookup σ2.st p = phaseTarget ph := by
          cases hst p with
          | inl same => exact same.trans hst1p
          | inr tr => exact tr.2
        have hstσ'p : stLookup σ'.st p = phaseTarget ph := by
          rw [hstσ']; exact hst2p
        have hmemσ'p : p ∈ phaseOrder ph σ' := by
          rw [hordσ']; exact List.mem_append_right _ (List.mem_singleton.mpr rfl)
        refine ⟨⟨⟨Δ ++ [p], by rw [hordσ', hΔ, hord1, List.append_assoc]⟩,
          ?_, ?_, ?_, ?_⟩, fun _ => ⟨hstσ'p, hmemσ'p⟩⟩
        · intro q
          by_cases hq : q = p
          · subst hq; exact Or.inr ⟨hp, hstσ'p⟩
          · cases hst q with
            | inl same =>
              exact Or.inl (by rw [hstσ']; exact same.trans (hst1ne q hq))
            | inr tr =>
              refine Or.inr ⟨(hst1ne q hq).symm.trans tr.1, ?_⟩
              rw [hstσ']; exact tr.2
        · intro q hq1 hq2
          by_cases hq : q = p
          · subst hq; exact hmemσ'p
          · have hq1' : stLookup (stSet σ.st p (phaseTarget ph)) q = phaseEntry ph := by
              rw [hst1ne q hq]; exact hq1
            have hq2' : stLookup σ2.st q = phaseTarget ph := by
              rw [← hstσ']; exact hq2
            have := htr q hq1' hq2'
            rw [hordσ']
            exact List.mem_append_left _ this
        · intro q hq
          rw [hordσ'] at hq
          cases List.mem_append.mp hq with
          | inl hq2 =>
            cases hmem q hq2 with
            | inl hq1 => exact Or.inl (hord1 ▸ hq1)
            | inr tr =>
              have hqne : q ≠ p := by
                intro hqp
                subst hqp
                exact absurd (hst1p.symm.trans tr.1)
                  (Ne.symm (phaseEntry_ne_phaseTarget ph))
              refine Or.inr ⟨(hst1ne q hqne).symm.trans tr.1, ?_⟩
              rw [hstσ']; exact tr.2
          | inr hqp =>
            have hqp' : q = p := List.mem_singleton.mp hqp
            subst hqp'
            exact Or.inr ⟨hp, hstσ'p⟩
        · rw [hothσ', hoth, hoth1]
    · rw [hunf, if_neg hp] at h
      have hσ' : checkAssert σ p (phaseTarget ph) = σ' := Option.some.inj h
      have h1 : phaseOrder ph σ' = phaseOrder ph σ := by
        rw [← hσ', phaseOrder_checkAssert]
      have h2 : σ'.st = σ.st := by rw [← hσ', st_checkAssert]
      have h3 : phaseOther ph σ' = phaseOther ph σ := by
        rw [← hσ', phaseOther_checkAssert]
      exact ⟨basicSeq_of_fields ph σ σ' h1 h2 h3, fun hpp => absurd hpp hp⟩

/-- BasicSeq for a completed sequence of transition calls. -/
theorem seqRun_basic (deps : Nat → List Nat) (ph : Phase) (f : Nat) :
    ∀ ps (σ σ' : LifeState), seqRun (transOne deps ph f) ps σ = some σ' →
      BasicSeq ph σ σ' :=
  seqRun_basic_aux deps ph f (fun p σ σ' hh => (transOne_basic deps ph f p σ σ' hh).1)

/-! ## C9: initialize is idempotent after a successful first call -/

/-- C9: after a successful first initialize of a plugin in state
registered, a second initialize returns the application state
unchanged: the guard is closed, so no dependency traversal runs, no
plugin_initialize hook runs, nothing is appended to
initialized_plugins, the state stays initialized, and the closing
assertion passes. -/
theorem initOne_idempotent (deps : Nat → List Nat) (f g p : Nat) (σ σ' : LifeState)
    (h1 : stLookup σ.st p = .registered) (h2 : initOne deps f p σ = some σ') :
    initOne deps (g + 1) p σ' = some σ' := by
  have hroot := (transOne_basic deps .init f p σ σ' h2).2 h1
  have hstate : stLookup σ'.st p = PState.initialized := hroot.1
  simp [initOne, transOne, phaseEntry, phaseTarget, hstate, checkAssert]

/-- Witness for initOne_idempotent. -/
theorem initOne_idempotent_witness :
    initOne noDeps 1 0 soloInitResult = some soloInitResult :=
  initOne_idempotent noDeps 2 0 0 freshState soloInitResult (by decide) (by decide)

/-! ## Ordering invariants under an acyclicity witness -/

theorem cond_transfer (ph : Phase) (σ σm : LifeState) (hbs : BasicSeq ph σ σm) (d : Nat)
    (h : stLookup σ.st d = phaseEntry ph ∨ stLookup σ.st d = phaseTarget ph) :
    stLookup σm.st d = phaseEntry ph ∨ stLookup σm.st d = phaseTarget ph := by
  obtain ⟨_, hst, _, _, _⟩ := hbs
  cases h with
  | inl hde =>
    cases hst d with
    | inl same => exact Or.inl (same.trans hde)
    | inr tr => exact Or.inr tr.2
  | inr hdt =>
    cases hst d with
    | inl same => exact Or.inr (same.trans hdt)
    | inr tr =>
      exact absurd (hdt.symm.trans tr.1) (Ne.symm (phaseEntry_ne_phaseTarget ph))

/-- Sequence version of the ordering lemma, parametrized by the
one-call version at the same fuel. -/
theorem seqRun_ordered_aux (deps : Nat → List Nat) (rank : Nat → Nat) (ph : Phase) (f : Nat)
    (hQ : ∀ p (σ σ' : LifeState), transOne deps ph f p σ = some σ' →
      (∀ q, q ∈ phaseOrder ph σ → stLookup σ.st q = phaseTarget ph) →
      (∀ q, stLookup σ.st q = phaseTarget ph → q ∈ phaseOrder ph σ ∨ rank p < rank q) →
      (∀ q, q ∈ phaseOrder ph σ' → stLookup σ'.st q = phaseTarget ph)
      ∧ (∀ q, stLookup σ.st q = phaseEntry ph → stLookup σ'.st q = phaseTarget ph →
          ∀ d, d ∈ deps q →
            (stLookup σ.st d = phaseEntry ph ∨ stLookup σ.st d = phaseTarget ph) →
            occursBefore d q (phaseOrder ph σ') = true)) :
    ∀ ps (σ σ' : LifeState), seqRun (transOne deps ph f) ps σ = some σ' →
      (∀ q, q ∈ phaseOrder ph σ → stLookup σ.st q = phaseTarget ph) →
      (∀ d, d ∈ ps → ∀ q, stLookup σ.st q = phaseTarget ph →
        q ∈ phaseOrder ph σ ∨ rank d < rank q) →
      (∀ q, q ∈ phaseOrder ph σ' → stLookup σ'.st q = phaseTarget ph)
      ∧ (∀ q, stLookup σ.st q = phaseEntry ph → stLookup σ'.st q = phaseTarget ph →
          ∀ d, d ∈ deps q →
            (stLookup σ.st d = phaseEntry ph ∨ stLookup σ.st d = phaseTarget ph) →
            occursBefore d q (phaseOrder ph σ') = true)
      ∧ (∀ d, d ∈ ps →
          (stLookup σ.st d = phaseEntry ph ∨ stLookup σ.st d = phaseTarget ph) →
          d ∈ phaseOrder ph σ') := by
  intro ps
  induction ps with
  | nil =>
    intro σ σ' h hOK hB
    simp [seqRun] at h
    subst h
    refine ⟨hOK, ?_, ?_⟩
    · intro q hq1 hq2 d hd hcond
      exact absurd (hq1.symm.trans hq2) (phaseEntry_ne_phaseTarget ph)
    · intro d hd
      simp at hd
  | cons d0 rest ih =>
    intro σ σ' h hOK hB
    simp only [seqRun] at h
    cases hc : transOne deps ph f d0 σ with
    | none => rw [hc] at h; cases h
    | some σm =>
      rw [hc] at h
      have hb1 := transOne_basic deps ph f d0 σ σm hc
      have hbs1 : BasicSeq ph σ σm := hb1.1
      obtain ⟨⟨Δ1, hΔ1⟩, hst1, htr1, hmem1, hoth1⟩ := hb1.1
      obtain ⟨⟨Δ2, hΔ2⟩, hst2, htr2, hmem2, hoth2⟩ := seqRun_basic deps ph f rest σm σ' h
      obtain ⟨hOKm, transOrd1⟩ :=
        hQ d0 σ σm hc hOK (hB d0 (List.mem_cons_self d0 rest))
      have hBm : ∀ d, d ∈ rest → ∀ q, stLookup σm.st q = phaseTarget ph →
          q ∈ phaseOrder ph σm ∨ rank d < rank q := by
        intro d hd q hqt
        cases hst1 q with
        | inl same =>
          cases hB d (List.mem_cons_of_mem d0 hd) q (same.symm.trans hqt) with
          | inl hmem => exact Or.inl (by rw [hΔ1]; exact List.mem_append_left _ hmem)
          | inr hlt => exact Or.inr hlt
        | inr tr => exact Or.inl (htr1 q tr.1 tr.2)
      obtain ⟨hOK', transOrd2, mem2⟩ := ih σm σ' h hOKm hBm
      refine ⟨hOK', ?_, ?_⟩
      · intro q hq1 hq2 d hd hcond
        cases hst1 q with
        | inr tr =>
          have h5 := transOrd1 q hq1 tr.2 d hd hcond
          rw [hΔ2]
          exact occursBefore_append_left d q _ Δ2 h5
        | inl same =>
          have hqm : stLookup σm.st q = phaseEntry ph := same.trans hq1
          exact transOrd2 q hqm hq2 d hd (cond_transfer ph σ σm hbs1 d hcond)
      · intro d hd hcond
        cases List.mem_cons.mp hd with
        | inl hdd0 =>
          subst hdd0
          cases hcond with
          | inl hde =>
            have := (hb1.2 hde).2
            rw [hΔ2]
            exact List.mem_append_left _ this
          | inr hdt =>
            cases hB d (List.mem_cons_self d rest) d hdt with
            | inl hmem =>
              rw [hΔ2, hΔ1]
              exact List.mem_append_left _ (List.mem_append_left _ hmem)
            | inr hlt => exact absurd hlt (Nat.lt_irrefl _)
        | inr hdr =>
          exact mem2 d hdr (cond_transfer ph σ σm hbs1 d hcond)

/-- Under a rank function witnessing acyclicity of the dependency
declarations, a completed transition keeps the order log sound (only
plugins in the target state are logged) and logs every declared
dependency of a transitioned plugin strictly before the plugin itself. -/
theorem transOne_ordered (deps : Nat → List Nat) (rank : Nat → Nat) (ph : Phase)
    (Hrank : ∀ q d, d ∈ deps q → rank d < rank q) :
    ∀ f p (σ σ' : LifeState), transOne deps ph f p σ = some σ' →
      (∀ q, q ∈ phaseOrder ph σ → stLookup σ.st q = phaseTarget ph) →
      (∀ q, stLookup σ.st q = phaseTarget ph → q ∈ phaseOrder ph σ ∨ rank p < rank q) →
      (∀ q, q ∈ phaseOrder ph σ' → stLookup σ'.st q = phaseTarget ph)
      ∧ (∀ q, stLookup σ.st q = phaseEntry ph → stLookup σ'.st q = phaseTarget ph →
          ∀ d, d ∈ deps q →
            (stLookup σ.st d = phaseEntry ph ∨ stLookup σ.st d = phaseTarget ph) →
            occursBefore d q (phaseOrder ph σ') = true) := by
  intro f
  induction f with
  | zero => intro p σ σ' h; simp [transOne] at h
  | succ f ih =>
    intro p σ σ' h hOK hB
    have htop := transOne_basic deps ph (f + 1) p σ σ' h
    have hunf : transOne deps ph (f + 1) p σ =
        (if stLookup σ.st p = phaseEntry ph then
          match seqRun (transOne deps ph f) (deps p)
              { σ with st := stSet σ.st p (phaseTarget ph),
                       trace := σ.trace ++ [.stateChange p (phaseTarget ph)] } with
          | none => none
          | some σ2 =>
            some (checkAssert
              (phaseNotify ph { σ2 with trace := σ2.trace ++ [phaseHook ph p] } p)
              p (phaseTarget ph))
        else some (checkAssert σ p (phaseTarget ph))) := rfl
    by_cases hp : stLookup σ.st p = phaseEntry ph
    · rw [hunf, if_pos hp] at h
      cases hs : seqRun (transOne deps ph f) (deps p)
          { σ with st := stSet σ.st p (phaseTarget ph),
                   trace := σ.trace ++ [.stateChange p (phaseTarget ph)] } with
      | none => rw [hs] at h; cases h
      | some σ2 =>
        rw [hs] at h
        have hσ' : checkAssert
            (phaseNotify ph { σ2 with trace := σ2.trace ++ [phaseHook ph p] } p)
            p (phaseTarget ph) = σ' := Option.some.inj h
        have hordσ' : phaseOrder ph σ' = phaseOrder ph σ2 ++ [p] := by
          rw [← hσ', phaseOrder_checkAssert, phaseOrder_notify, phaseOrder_traceAppend]
        have hstσ' : σ'.st = σ2.st := by
          rw [← hσ', st_checkAssert, st_notify]
        have hord1 : phaseOrder ph
            { σ with st := stSet σ.st p (phaseTarget ph),
                     trace := σ.trace ++ [.stateChange p (phaseTarget ph)] }
            = phaseOrder ph σ := by cases ph <;> rfl
        have hst1p : stLookup (stSet σ.st p (phaseTarget ph)) p = phaseTarget ph :=
          stLookup_stSet_self σ.st p (phaseTarget ph)
        have hst1ne : ∀ q, q ≠ p →
            stLookup (stSet σ.st p (phaseTarget ph)) q = stLookup σ.st q :=
          fun q hq => stLookup_stSet_ne σ.st p q (phaseTarget ph) hq
        have hOK1 : ∀ q, q ∈ phaseOrder ph
            { σ with st := stSet σ.st p (phaseTarget ph),
                     trace := σ.trace ++ [.stateChange p (phaseTarget ph)] } →
            stLookup (stSet σ.st p (phaseTarget ph)) q = phaseTarget ph := by
          intro q hq
          rw [hord1] at hq
          have hqt := hOK q hq
          have hqne : q ≠ p := by
            intro hqp
            subst hqp
            exact absurd (hp.symm.trans hqt) (phaseEntry_ne_phaseTarget ph)
          rw [hst1ne q hqne]
          exact hqt
        have hB1 : ∀ d, d ∈ deps p → ∀ q,
            stLookup (stSet σ.st p (phaseTarget ph)) q = phaseTarget ph →
            q ∈ phaseOrder ph
              { σ with st := stSet σ.st p (phaseTarget ph),
                       trace := σ.trace ++ [.stateChange p (phaseTarget ph)] }
              ∨ rank d < rank q := by
          intro d hd q hqt
          by_cases hqp : q = p
          · rw [hqp]
            exact Or.inr (Hrank p d hd)
          · rw [hst1ne q hqp] at hqt
            cases hB q hqt with
            | inl hmem => exact Or.inl (by rw [hord1]; exact hmem)
            | inr hlt => exact Or.inr (Nat.lt_trans (Hrank p d hd) hlt)
        obtain ⟨hOK2, transOrd12, hMemDeps⟩ :=
          seqRun_ordered_aux deps rank ph f ih (deps p) _ σ2 hs hOK1 hB1
        have hbs12 := seqRun_basic deps ph f (deps p) _ σ2 hs
        obtain ⟨⟨Δ12, hΔ12⟩, hst12, htr12, hmem12, _⟩ := hbs12
        refine ⟨?_, ?_⟩
        · intro q hq
          rw [hordσ'] at hq
          cases List.mem_append.mp hq with
          | inl hq2 =>
            rw [hstσ']
            exact hOK2 q hq2
          | inr hqp =>
            have := List.mem_singleton.mp hqp
            subst this
            exact (htop.2 hp).1
        · intro q hq1 hq2 d hd hcond
          by_cases hqp : q = p
          · rw [hqp] at hd ⊢
            have hdne : d ≠ p := by
              intro hdq
              exact absurd (hdq ▸ Hrank p d hd) (Nat.lt_irrefl _)
            have hcond1 : stLookup (stSet σ.st p (phaseTarget ph)) d = phaseEntry ph
                ∨ stLookup (stSet σ.st p (phaseTarget ph)) d = phaseTarget ph := by
              rw [hst1ne d hdne]
              exact hcond
            have hd2 : d ∈ phaseOrder ph σ2 := hMemDeps d hd hcond1
            have hpnot : p ∉ phaseOrder ph σ2 := by
              intro hpmem
              cases hmem12 p hpmem with
              | inl h0 =>
                rw [hord1] at h0
                exact absurd (hp.symm.trans (hOK p h0)) (phaseEntry_ne_phaseTarget ph)
              | inr tr =>
                exact absurd (hst1p.symm.trans tr.1)
                  (Ne.symm (phaseEntry_ne_phaseTarget ph))
            rw [hordσ']
            exact occursBefore_append_self d p (phaseOrder ph σ2) hd2 hpnot
          · have hq1' : stLookup (stSet σ.st p (phaseTarget ph)) q = phaseEntry ph := by
              rw [hst1ne q hqp]
              exact hq1
            have hq2' : stLookup σ2.st q = phaseTarget ph := by
              rw [← hstσ']
              exact hq2
            have hcond1 : stLookup (stSet σ.st p (phaseTarget ph)) d = phaseEntry ph
                ∨ stLookup (stSet σ.st p (phaseTarget ph)) d = phaseTarget ph := by
              by_cases hdp : d = p
              · subst hdp
                exact Or.inr hst1p
              · rw [hst1ne d hdp]
                exact hcond
            have := transOrd12 q hq1' hq2' d hd hcond1
            rw [hordσ']
            exact occursBefore_append_left d q _ [p] this
    · rw [hunf, if_neg hp] at h
      have hσ' : checkAssert σ p (phaseTarget ph) = σ' := Option.some.inj h
      have hstq : σ'.st = σ.st := by rw [← hσ', st_checkAssert]
      have hordq : phaseOrder ph σ' = phaseOrder ph σ := by
        rw [← hσ', phaseOrder_checkAssert]
      refine ⟨?_, ?_⟩
      · intro q hq
        rw [hordq] at hq
        rw [hstq]
        exact hOK q hq
      · intro q hq1 hq2 d hd hcond
        rw [hstq] at hq2
        exact absurd (hq1.symm.trans hq2) (phaseEntry_ne_phaseTarget ph)

/-! ## C1: dependencies are initialized and started before dependents -/

/-- C1 (amended): when the dependency declaration relation is acyclic
(witnessed by a rank function that strictly drops along declarations),
then for any plugins A and B with B declared by A, after
initialize_all({A}) from a fresh application B's state is initialized
and B occurs strictly before A in initialized_plugins; and after the
subsequent startup_all, B occurs strictly before A in running_plugins. -/
theorem acyclic_dependency_ordering (deps : Nat → List Nat) (rank : Nat → Nat)
    (A B f g : Nat) (σ' σ'' : LifeState)
    (Hrank : ∀ q d, d ∈ deps q → rank d < rank q)
    (HB : B ∈ deps A)
    (h1 : initAll deps f [A] freshState = some σ')
    (h2 : startupAll deps g σ' = some σ'') :
    stLookup σ'.st B = .initialized
    ∧ occursBefore B A σ'.initialized_plugins = true
    ∧ occursBefore B A σ''.running_plugins = true := by
  have hinit : initOne deps f A freshState = some σ' := by
    simp only [initAll, seqRun] at h1
    cases hA : initOne deps f A freshState with
    | none => rw [hA] at h1; cases h1
    | some σm =>
      simp only [hA] at h1
      exact h1
  have hfreshA : stLookup freshState.st A = phaseEntry .init := rfl
  have hfreshB : stLookup freshState.st B = phaseEntry .init := rfl
  have hOK0 : ∀ q, q ∈ phaseOrder .init freshState →
      stLookup freshState.st q = phaseTarget .init := by
    intro q hq
    simp [phaseOrder, freshState] at hq
  have hB0 : ∀ q, stLookup freshState.st q = phaseTarget .init →
      q ∈ phaseOrder .init freshState ∨ rank A < rank q := by
    intro q hq
    simp [stLookup, freshState, phaseTarget] at hq
  obtain ⟨hOK', hTO'⟩ :=
    transOne_ordered deps rank .init Hrank f A freshState σ' hinit hOK0 hB0
  have hbasic := transOne_basic deps .init f A freshState σ' hinit
  obtain ⟨hA', hAmem⟩ := hbasic.2 hfreshA
  have hBefore : occursBefore B A (phaseOrder .init σ') = true :=
    hTO' A hfreshA hA' B HB (Or.inl hfreshB)
  have hBmem : B ∈ phaseOrder .init σ' := (occursBefore_mem B A _ hBefore).1
  have hBst : stLookup σ'.st B = PState.initialized := hOK' B hBmem
  refine ⟨hBst, hBefore, ?_⟩
  obtain ⟨⟨Δ, hΔ⟩, hst, _, _, hoth⟩ := hbasic.1
  have hnostart : ∀ q, stLookup σ'.st q ≠ PState.started := by
    intro q
    cases hst q with
    | inl same =>
      rw [same]
      simp [stLookup, freshState]
    | inr tr =>
      rw [tr.2]
      simp [phaseTarget]
  have hrun' : σ'.running_plugins = [] := by
    have : phaseOther .init σ' = phaseOther .init freshState := hoth
    simpa [phaseOther, freshState] using this
  have hstart : seqRun (transOne deps .start g) σ'.initialized_plugins σ' = some σ'' := h2
  have hOKs : ∀ q, q ∈ phaseOrder .start σ' →
      stLookup σ'.st q = phaseTarget .start := by
    intro q hq
    simp only [phaseOrder] at hq
    rw [hrun'] at hq
    simp at hq
  have hBs : ∀ d, d ∈ σ'.initialized_plugins → ∀ q,
      stLookup σ'.st q = phaseTarget .start →
      q ∈ phaseOrder .start σ' ∨ rank d < rank q := by
    intro d hd q hq
    exact absurd hq (hnostart q)
  obtain ⟨hOK'', hTO'', hMem''⟩ :=
    seqRun_ordered_aux deps rank .start g
      (transOne_ordered deps rank .start Hrank g)
      σ'.initialized_plugins σ' σ'' hstart hOKs hBs
  have hAentry : stLookup σ'.st A = phaseEntry .start := hA'
  have hAmem'' : A ∈ phaseOrder .start σ'' :=
    hMem'' A hAmem (Or.inl hAentry)
  have hAstarted : stLookup σ''.st A = phaseTarget .start := hOK'' A hAmem''
  exact hTO'' A hAentry hAstarted B HB (Or.inl hBst)

/-- C1 counterexample: with the cyclic declaration 0 <-> 1, plugin 0
declares 1, initialize_all({0}) still orders 1 before 0, but after
startup_all the started order is [0, 1]: plugin 1 does NOT occur
strictly before plugin 0 in running_plugins, refuting the claim as
stated (which quantifies over all dependency declarations, including
cyclic ones). -/
theorem dependency_ordering_counterexample :
    (1 ∈ cycDeps 0)
    ∧ initAll cycDeps 3 [0] freshState = some cycInitResult
    ∧ startupAll cycDeps 3 cycInitResult = some cycStartResult
    ∧ cycStartResult.running_plugins = [0, 1]
    ∧ occursBefore 1 0 cycStartResult.running_plugins = false := by
  refine ⟨by decide, by decide, by decide, by decide, by decide⟩

/-- Witness for acyclic_dependency_ordering on the acyclic chain
0 -> 1 with rank witness chainRank. -/
theorem acyclic_dependency_ordering_witness :
    stLookup chainInitResult.st 1 = .initialized
    ∧ occursBefore 1 0 chainInitResult.initialized_plugins = true
    ∧ occursBefore 1 0 chainStartResult.running_plugins = true :=
  acyclic_dependency_ordering chainDeps chainRank 0 1 3 3
    chainInitResult chainStartResult
    (by
      intro q d hd
      by_cases hq : q = 0
      · subst hq
        simp [chainDeps] at hd
        subst hd
        decide
      · simp [chainDeps, hq] at hd)
    (by decide) (by decide) (by decide)

/-! ## C3: order of effects inside plugin::initialize -/

/-- C3 (amended): for a plugin in state registered, initialize performs
its effects in this order: (a) transition the plugin's own state to
initialized FIRST, then (b) recursively initialize every declared
dependency, then (c) run the plugin's own initialization hook, then
(d) notify the orchestrator, which appends the plugin to
initialized_order.  (The state transition precedes the dependency
recursion and the hook, rather than following them.) -/
theorem init_effects_order (deps : Nat → List Nat) (f p : Nat) (σ σ' : LifeState)
    (h0 : stLookup σ.st p = .registered)
    (h : initOne deps (f + 1) p σ = some σ') :
    ∃ σ2, seqRun (initOne deps f) (deps p)
        { σ with st := stSet σ.st p .initialized,
                 trace := σ.trace ++ [.stateChange p .initialized] } = some σ2
      ∧ σ'.trace = σ2.trace ++ [.initHook p, .notifyInitialized p]
      ∧ σ'.initialized_plugins = σ2.initialized_plugins ++ [p]
      ∧ σ'.st = σ2.st
      ∧ σ'.running_plugins = σ2.running_plugins
      ∧ σ'.assertFail = σ2.assertFail := by
  have hunf : initOne deps (f + 1) p σ =
      (if stLookup σ.st p = phaseEntry .init then
        match seqRun (transOne deps .init f) (deps p)
            { σ with st := stSet σ.st p (phaseTarget .init),
                     trace := σ.trace ++ [.stateChange p (phaseTarget .init)] } with
        | none => none
        | some σ2 =>
          some (checkAssert
            (phaseNotify .init { σ2 with trace := σ2.trace ++ [phaseHook .init p] } p)
            p (phaseTarget .init))
      else some (checkAssert σ p (phaseTarget .init))) := rfl
  rw [hunf, if_pos (show stLookup σ.st p = phaseEntry .init from h0)] at h
  cases hs : seqRun (transOne deps .init f) (deps p)
      { σ with st := stSet σ.st p (phaseTarget .init),
               trace := σ.trace ++ [.stateChange p (phaseTarget .init)] } with
  | none => rw [hs] at h; cases h
  | some σ2 =>
    rw [hs] at h
    have hσ' : checkAssert
        (phaseNotify .init { σ2 with trace := σ2.trace ++ [phaseHook .init p] } p)
        p (phaseTarget .init) = σ' := Option.some.inj h
    have hst1p : stLookup (stSet σ.st p (phaseTarget .init)) p = phaseTarget .init :=
      stLookup_stSet_self σ.st p (phaseTarget .init)
    obtain ⟨_, hst, _, _, _⟩ := seqRun_basic deps .init f (deps p) _ σ2 hs
    have hst2p : stLookup σ2.st p = phaseTarget .init := by
      cases hst p with
      | inl same => exact same.trans hst1p
      | inr tr => exact tr.2
    have hpass : checkAssert
        (phaseNotify .init { σ2 with trace := σ2.trace ++ [phaseHook .init p] } p)
        p (phaseTarget .init)
        = phaseNotify .init { σ2 with trace := σ2.trace ++ [phaseHook .init p] } p := by
      unfold checkAssert
      rw [if_pos]
      rw [st_notify]
      exact hst2p
    rw [hpass] at hσ'
    refine ⟨σ2, hs, ?_, ?_, ?_, ?_, ?_⟩ <;>
      rw [← hσ'] <;> simp [phaseNotify, phaseHook]

/-- C3 counterexample: for a dependency-free plugin initialized from a
fresh state, the trace shows the state transition to initialized
occurring strictly before the plugin_initialize hook, refuting the
claimed order (dependencies, then hook, then transition, then
notification). -/
theorem init_effects_order_counterexample :
    initOne noDeps 2 0 freshState = some soloInitResult
    ∧ soloInitResult.trace =
        [.stateChange 0 .initialized, .initHook 0, .notifyInitialized 0]
    ∧ occursBefore (Event.stateChange 0 .initialized) (Event.initHook 0)
        soloInitResult.trace = true
    ∧ occursBefore (Event.initHook 0) (Event.stateChange 0 .initialized)
        soloInitResult.trace = false := by
  refine ⟨by decide, by decide, by decide, by decide⟩

/-- Witness for init_effects_order on the chain 0 -> 1. -/
theorem init_effects_order_witness :
    ∃ σ2, seqRun (initOne chainDeps 2) (chainDeps 0)
        { freshState with
            st := stSet freshState.st 0 PState.initialized,
            trace := freshState.trace ++ [Event.stateChange 0 PState.initialized] }
        = some σ2
      ∧ chainInitResult.trace = σ2.trace ++ [.initHook 0, .notifyInitialized 0]
      ∧ chainInitResult.initialized_plugins = σ2.initialized_plugins ++ [0]
      ∧ chainInitResult.st = σ2.st
      ∧ chainInitResult.running_plugins = σ2.running_plugins
      ∧ chainInitResult.assertFail = σ2.assertFail :=
  init_effects_order chainDeps 2 0 freshState chainInitResult (by decide) (by decide)

/-! ## Lookup lemmas for the registries -/

theorem lookupKey_append_some (l m : List (Nat × Nat)) (t v : Nat)
    (h : lookupKey l t = some v) : lookupKey (l ++ m) t = some v := by
  induction l with
  | nil => simp [lookupKey] at h
  | cons e rest ih =>
    by_cases he : t = e.1
    · simp [lookupKey, he] at h ⊢
      exact h
    · simp [lookupKey, he] at h ⊢
      exact ih h

theorem lookupKey_append_none_self (l : List (Nat × Nat)) (t i : Nat)
    (h : lookupKey l t = none) : lookupKey (l ++ [(t, i)]) t = some i := by
  induction l with
  | nil => simp [lookupKey]
  | cons e rest ih =>
    by_cases he : t = e.1
    · simp [lookupKey, he] at h
    · simp [lookupKey, he] at h ⊢
      exact ih h

theorem lookupKey_append_single_ne (l : List (Nat × Nat)) (t t' v : Nat)
    (h : t ≠ t') : lookupKey (l ++ [(t', v)]) t = lookupKey l t := by
  induction l with
  | nil => simp [lookupKey, h]
  | cons e rest ih =>
    by_cases he : t = e.1
    · simp [lookupKey, he]
    · simp [lookupKey, he, ih]

theorem lookupKey_lt_of_bound (l : List (Nat × Nat)) (c t v : Nat)
    (hb : ∀ e ∈ l, e.2 < c) (h : lookupKey l t = some v) : v < c := by
  induction l with
  | nil => simp [lookupKey] at h
  | cons e rest ih =>
    by_cases he : t = e.1
    · simp [lookupKey, he] at h
      exact h ▸ hb e (List.mem_cons_self e rest)
    · simp [lookupKey, he] at h
      exact ih (fun e' he' => hb e' (List.mem_cons_of_mem e he')) h

theorem lookupKey_mem_values (l : List (Nat × Nat)) (t v : Nat)
    (h : lookupKey l t = some v) : v ∈ l.map Prod.snd := by
  induction l with
  | nil => simp [lookupKey] at h
  | cons e rest ih =>
    by_cases he : t = e.1
    · simp [lookupKey, he] at h
      simp [h]
    · simp [lookupKey, he] at h
      simp [ih h]

theorem lookupKey_values_distinct (l : List (Nat × Nat)) (t1 t2 a b : Nat)
    (hn : (l.map Prod.snd).Nodup) (hne : t1 ≠ t2)
    (h1 : lookupKey l t1 = some a) (h2 : lookupKey l t2 = some b) : a ≠ b := by
  induction l with
  | nil => simp [lookupKey] at h1
  | cons e rest ih =>
    have hmap : (e.2 :: rest.map Prod.snd).Nodup := by simpa using hn
    have hn1 : e.2 ∉ rest.map Prod.snd := (List.nodup_cons.mp hmap).1
    have hn2 : (rest.map Prod.snd).Nodup := (List.nodup_cons.mp hmap).2
    by_cases he1 : t1 = e.1
    · have he2 : ¬ t2 = e.1 := fun h => hne (he1.trans h.symm)
      simp [lookupKey, he1] at h1
      simp [lookupKey, he2] at h2
      intro hab
      refine hn1 ?_
      rw [h1, hab]
      exact lookupKey_mem_values rest t2 b h2
    · by_cases he2 : t2 = e.1
      · simp [lookupKey, he1] at h1
        simp [lookupKey, he2] at h2
        intro hab
        refine hn1 ?_
        rw [h2, ← hab]
        exact lookupKey_mem_values rest t1 a h1
      · simp [lookupKey, he1] at h1
        simp [lookupKey, he2] at h2
        exact ih hn2 h1 h2

/-! ## C2: shutdown_all fires hooks in reverse started order -/

theorem shutdown_fold_hooks : ∀ (L : List Nat) (σ : LifeState),
    (∀ p ∈ L, stLookup σ.st p = .started) → L.Nodup →
    shutdownHookOrder ((L.foldl (fun s p => shutdownOne p s) σ).trace)
      = shutdownHookOrder σ.trace ++ L := by
  intro L
  induction L with
  | nil => intro σ _ _; simp
  | cons p rest ih =>
    intro σ h1 h2
    simp only [List.foldl_cons]
    have hp : stLookup σ.st p = PState.started := h1 p (List.mem_cons_self p rest)
    have hσa : shutdownOne p σ =
        { σ with st := stSet σ.st p .stopped,
                 trace := σ.trace ++ [.stateChange p .stopped, .shutdownHook p] } := by
      simp [shutdownOne, hp]
    rw [hσa]
    have hrest : ∀ q ∈ rest,
        stLookup ({ σ with
            st := stSet σ.st p .stopped,
            trace := σ.trace ++ [.stateChange p .stopped, .shutdownHook p] }
          : LifeState).st q = PState.started := by
      intro q hq
      have hqp : q ≠ p := by
        intro h
        exact (List.nodup_cons.mp h2).1 (h ▸ hq)
      show stLookup (stSet σ.st p .stopped) q = PState.started
      rw [stLookup_stSet_ne σ.st p q .stopped hqp]
      exact h1 q (List.mem_cons_of_mem p hq)
    rw [ih _ hrest (List.nodup_cons.mp h2).2]
    simp [shutdownHookOrder, List.filterMap_append]

/-- C2: shutdown_all invokes the plugin_shutdown hooks in exactly the
reverse of running_plugins (started_order): when every logged plugin is
started and the log has no duplicates, the hooks fired are precisely
the reverse of the log, most recently started first. -/
theorem shutdownAll_reverse_order (σ : LifeState)
    (h1 : ∀ p ∈ σ.running_plugins, stLookup σ.st p = .started)
    (h2 : σ.running_plugins.Nodup) :
    shutdownHookOrder (shutdownAll σ).trace
      = shutdownHookOrder σ.trace ++ σ.running_plugins.reverse := by
  unfold shutdownAll
  exact shutdown_fold_hooks σ.running_plugins.reverse σ
    (fun p hp => h1 p (List.mem_reverse.mp hp)) (List.nodup_reverse.mpr h2)

/-- Witness for shutdownAll_reverse_order: with started order [1, 0]
the hooks fire in order [0, 1]. -/
theorem shutdownAll_reverse_order_witness :
    shutdownHookOrder (shutdownAll twoStartedState).trace
      = shutdownHookOrder twoStartedState.trace
        ++ twoStartedState.running_plugins.reverse :=
  shutdownAll_reverse_order twoStartedState (by decide) (by decide)

/-! ## C4: the guarded traversal terminates, cycles included -/

theorem stCount_congr (s : PState) (a b : List (Nat × PState)) (n : Nat)
    (h : ∀ q, q < n → stLookup a q = stLookup b q) : stCount s a n = stCount s b n := by
  induction n with
  | zero => rfl
  | succ n ih =>
    simp only [stCount]
    rw [ih (fun q hq => h q (Nat.lt_succ_of_lt hq)), h n (Nat.lt_succ_self n)]

theorem stCount_set (s s' : PState) (st : List (Nat × PState)) (p n : Nat)
    (hp : p < n) (hs : stLookup st p = s) (hne : s' ≠ s) :
    stCount s (stSet st p s') n + 1 = stCount s st n := by
  induction n with
  | zero => exact absurd hp (Nat.not_lt_zero p)
  | succ n ih =>
    by_cases hpn : p = n
    · subst hpn
      simp only [stCount]
      rw [stLookup_stSet_self, if_neg hne, hs, if_pos rfl]
      have : stCount s (stSet st p s') p = stCount s st p :=
        stCount_congr s _ _ p (fun q hq => stLookup_stSet_ne st p q s' (Nat.ne_of_lt hq))
      omega
    · have hp' : p < n := Nat.lt_of_le_of_ne (Nat.le_of_lt_succ hp) hpn
      simp only [stCount]
      rw [stLookup_stSet_ne st p n s' (fun h => hpn h.symm)]
      have := ih hp'
      omega

theorem seqRun_term_aux (deps : Nat → List Nat) (ph : Phase) (n f : Nat)
    (hQ : ∀ p (σ : LifeState), p < n → stCount (phaseEntry ph) σ.st n < f →
      ∃ σ', transOne deps ph f p σ = some σ'
        ∧ stCount (phaseEntry ph) σ'.st n ≤ stCount (phaseEntry ph) σ.st n) :
    ∀ ps (σ : LifeState), (∀ d ∈ ps, d < n) → stCount (phaseEntry ph) σ.st n < f →
      ∃ σ', seqRun (transOne deps ph f) ps σ = some σ'
        ∧ stCount (phaseEntry ph) σ'.st n ≤ stCount (phaseEntry ph) σ.st n := by
  intro ps
  induction ps with
  | nil => intro σ _ _; exact ⟨σ, rfl, Nat.le_refl _⟩
  | cons d rest ih =>
    intro σ h1 h2
    obtain ⟨σm, hm, hcm⟩ := hQ d σ (h1 d (List.mem_cons_self d rest)) h2
    obtain ⟨σ', h', hc'⟩ := ih σm (fun e he => h1 e (List.mem_cons_of_mem d he))
      (Nat.lt_of_le_of_lt hcm h2)
    refine ⟨σ', ?_, Nat.le_trans hc' hcm⟩
    simp only [seqRun]
    rw [hm]
    exact h'

/-- The recursive lifecycle traversal terminates: with the plugin
universe bounded by n and fuel exceeding the number of plugins still in
the phase's entry state, the traversal returns a result — even for
cyclic declarations, because the state is assigned before the recursion
so revisits take the closed-guard branch. -/
theorem transOne_term (deps : Nat → List Nat) (ph : Phase) (n : Nat)
    (hcl : ∀ q, q < n → ∀ d ∈ deps q, d < n) :
    ∀ f p (σ : LifeState), p < n → stCount (phaseEntry ph) σ.st n < f →
      ∃ σ', transOne deps ph f p σ = some σ'
        ∧ stCount (phaseEntry ph) σ'.st n ≤ stCount (phaseEntry ph) σ.st n := by
  intro f
  induction f with
  | zero => intro p σ _ h; exact absurd h (Nat.not_lt_zero _)
  | succ f ih =>
    intro p σ hp hcount
    have hunf : transOne deps ph (f + 1) p σ =
        (if stLookup σ.st p = phaseEntry ph then
          match seqRun (transOne deps ph f) (deps p)
              { σ with st := stSet σ.st p (phaseTarget ph),
                       trace := σ.trace ++ [.stateChange p (phaseTarget ph)] } with
          | none => none
          | some σ2 =>
            some (checkAssert
              (phaseNotify ph { σ2 with trace := σ2.trace ++ [phaseHook ph p] } p)
              p (phaseTarget ph))
        else some (checkAssert σ p (phaseTarget ph))) := rfl
    by_cases hg : stLookup σ.st p = phaseEntry ph
    · have hdec : stCount (phaseEntry ph) (stSet σ.st p (phaseTarget ph)) n + 1
          = stCount (phaseEntry ph) σ.st n :=
        stCount_set (phaseEntry ph) (phaseTarget ph) σ.st p n hp hg
          (Ne.symm (phaseEntry_ne_phaseTarget ph))
      have hc1 : stCount (phaseEntry ph) (stSet σ.st p (phaseTarget ph)) n < f := by
        omega
      obtain ⟨σ2, hs2, hc2⟩ := seqRun_term_aux deps ph n f ih (deps p)
        { σ with st := stSet σ.st p (phaseTarget ph),
                 trace := σ.trace ++ [.stateChange p (phaseTarget ph)] }
        (hcl p hp) hc1
      refine ⟨checkAssert
        (phaseNotify ph { σ2 with trace := σ2.trace ++ [phaseHook ph p] } p)
        p (phaseTarget ph), ?_, ?_⟩
      · rw [hunf, if_pos hg, hs2]
      · rw [st_checkAssert, st_notify]
        have hc2' : stCount (phaseEntry ph) σ2.st n
            ≤ stCount (phaseEntry ph) (stSet σ.st p (phaseTarget ph)) n := hc2
        show stCount (phaseEntry ph) σ2.st n ≤ stCount (phaseEntry ph) σ.st n
        omega
    · refine ⟨checkAssert σ p (phaseTarget ph), ?_, ?_⟩
      · rw [hunf, if_neg hg]
      · rw [st_checkAssert]

theorem lookupKey_append_none (l m : List (Nat × Nat)) (q : Nat)
    (h : lookupKey (l ++ m) q = none) : lookupKey l q = none := by
  cases hl : lookupKey l q with
  | none => rfl
  | some v => rw [lookupKey_append_some l m q v hl] at h; cases h

theorem unregCount_congr (a b : List (Nat × Nat)) (n : Nat)
    (h : ∀ q, q < n → lookupKey a q = lookupKey b q) : unregCount a n = unregCount b n := by
  induction n with
  | zero => rfl
  | succ n ih =>
    simp only [unregCount]
    rw [ih (fun q hq => h q (Nat.lt_succ_of_lt hq)), h n (Nat.lt_succ_self n)]

theorem unregCount_append_le (l Δ : List (Nat × Nat)) (n : Nat) :
    unregCount (l ++ Δ) n ≤ unregCount l n := by
  induction n with
  | zero => exact Nat.le_refl _
  | succ n ih =>
    simp only [unregCount]
    by_cases h : lookupKey (l ++ Δ) n = none
    · rw [h, lookupKey_append_none l Δ n h]
      omega
    · rw [if_neg h]
      by_cases h2 : lookupKey l n = none
      · rw [h2]; omega
      · rw [if_neg h2]; omega

theorem unregCount_insert (l : List (Nat × Nat)) (t i n : Nat)
    (ht : t < n) (hl : lookupKey l t = none) :
    unregCount (l ++ [(t, i)]) n + 1 = unregCount l n := by
  induction n with
  | zero => exact absurd ht (Nat.not_lt_zero t)
  | succ n ih =>
    by_cases htn : t = n
    · subst htn
      simp only [unregCount]
      rw [lookupKey_append_none_self l t i hl, hl]
      have : unregCount (l ++ [(t, i)]) t = unregCount l t :=
        unregCount_congr _ _ t
          (fun q hq => lookupKey_append_single_ne l q t i (Nat.ne_of_lt hq))
      rw [if_neg (fun hc => Option.noConfusion hc), if_pos rfl]
      omega
    · have ht' : t < n := Nat.lt_of_le_of_ne (Nat.le_of_lt_succ ht) htn
      simp only [unregCount]
      rw [lookupKey_append_single_ne l n t i (fun h => htn h.symm)]
      have := ih ht'
      omega

theorem regSeq_term_aux (regDeps : Nat → List Nat) (n f : Nat)
    (hQ : ∀ t (σ : RegState), t < n → unregCount σ.plugins n < f →
      ∃ σ' i, register_plugin regDeps f t σ = some (σ', i)
        ∧ unregCount σ'.plugins n ≤ unregCount σ.plugins n) :
    ∀ ts (σ : RegState), (∀ d ∈ ts, d < n) → unregCount σ.plugins n < f →
      ∃ σ', regSeq (register_plugin regDeps f) ts σ = some σ'
        ∧ unregCount σ'.plugins n ≤ unregCount σ.plugins n := by
  intro ts
  induction ts with
  | nil => intro σ _ _; exact ⟨σ, rfl, Nat.le_refl _⟩
  | cons d rest ih =>
    intro σ h1 h2
    obtain ⟨σm, im, hm, hcm⟩ := hQ d σ (h1 d (List.mem_cons_self d rest)) h2
    obtain ⟨σ', h', hc'⟩ := ih σm (fun e he => h1 e (List.mem_cons_of_mem d he))
      (Nat.lt_of_le_of_lt hcm h2)
    refine ⟨σ', ?_, Nat.le_trans hc' hcm⟩
    simp only [regSeq]
    rw [hm]
    exact h'

/-- register_plugin terminates: with the type universe bounded by n and
fuel exceeding the number of not-yet-registered types, registration
returns — even for cyclic declarations, because the plugin is inserted
into the map before its dependencies are registered. -/
theorem register_plugin_term (regDeps : Nat → List Nat) (n : Nat)
    (hcl : ∀ q, q < n → ∀ d ∈ regDeps q, d < n) :
    ∀ f t (σ : RegState), t < n → unregCount σ.plugins n < f →
      ∃ σ' i, register_plugin regDeps f t σ = some (σ', i)
        ∧ unregCount σ'.plugins n ≤ unregCount σ.plugins n := by
  intro f
  induction f with
  | zero => intro t σ _ h; exact absurd h (Nat.not_lt_zero _)
  | succ f ih =>
    intro t σ ht hcount
    have hunf : register_plugin regDeps (f + 1) t σ =
        (match lookupKey σ.plugins t with
          | some i => some (σ, i)
          | none =>
            match regSeq (register_plugin regDeps f) (regDeps t)
                { plugins := σ.plugins ++ [(t, σ.nextId)],
                  states := σ.states ++ [(t, PState.registered)],
                  nextId := σ.nextId + 1 } with
            | none => none
            | some σ2 => some (σ2, σ.nextId)) := rfl
    cases hl : lookupKey σ.plugins t with
    | some i =>
      refine ⟨σ, i, ?_, Nat.le_refl _⟩
      rw [hunf, hl]
    | none =>
      have hdec : unregCount (σ.plugins ++ [(t, σ.nextId)]) n + 1
          = unregCount σ.plugins n := unregCount_insert σ.plugins t σ.nextId n ht hl
      have hc1 : unregCount (σ.plugins ++ [(t, σ.nextId)]) n < f := by omega
      obtain ⟨σ2, hs2, hc2⟩ := regSeq_term_aux regDeps n f ih (regDeps t)
        { plugins := σ.plugins ++ [(t, σ.nextId)],
          states := σ.states ++ [(t, PState.registered)],
          nextId := σ.nextId + 1 } (hcl t ht) hc1
      refine ⟨σ2, σ.nextId, ?_, ?_⟩
      · rw [hunf, hl, hs2]
      · have hc2' : unregCount σ2.plugins n
            ≤ unregCount (σ.plugins ++ [(t, σ.nextId)]) n := hc2
        omega

/-- C4 (amended): cyclic dependency declarations are not detected (no
error is reported), but the dependency traversal does NOT recurse
without bound: both the recursive initialize/startup traversal and the
registration traversal terminate, with recursion depth bounded by the
number of plugins, because a plugin's state is assigned (respectively
the plugin is inserted into the registry map) before its dependencies
are traversed, so a revisit takes the closed-guard branch. -/
theorem cyclic_traversal_terminates :
    (∀ (deps : Nat → List Nat) (ph : Phase) (n f p : Nat) (σ : LifeState),
      p < n → (∀ q, q < n → ∀ d ∈ deps q, d < n) →
      stCount (phaseEntry ph) σ.st n < f →
      ∃ σ', transOne deps ph f p σ = some σ')
    ∧ (∀ (regDeps : Nat → List Nat) (n f t : Nat) (σ : RegState),
      t < n → (∀ q, q < n → ∀ d ∈ regDeps q, d < n) →
      unregCount σ.plugins n < f →
      ∃ σ' i, register_plugin regDeps f t σ = some (σ', i)) := by
  constructor
  · intro deps ph n f p σ hp hcl hc
    obtain ⟨σ', h', _⟩ := transOne_term deps ph n hcl f p σ hp hc
    exact ⟨σ', h'⟩
  · intro regDeps n f t σ ht hcl hc
    obtain ⟨σ', i, h', _⟩ := register_plugin_term regDeps n hcl f t σ ht hc
    exact ⟨σ', i, h'⟩

/-- C4 counterexample: on the concrete cycle 0 <-> 1 both registration
and the initialize/startup traversals terminate (returning a result
with small fuel) and report no error, refuting the claim that a cyclic
declaration makes the traversal recurse without bound. -/
theorem cyclic_traversal_counterexample :
    register_plugin cycDeps 3 0 freshReg = some (cycRegResult, 0)
    ∧ initAll cycDeps 3 [0] freshState = some cycInitResult
    ∧ startupAll cycDeps 3 cycInitResult = some cycStartResult
    ∧ cycInitResult.assertFail = false
    ∧ cycStartResult.assertFail = false := by
  refine ⟨by decide, by decide, by decide, by decide, by decide⟩

/-- Witness for cyclic_traversal_terminates on the cycle 0 <-> 1 with
universe bound 2 and fuel 3. -/
theorem cyclic_traversal_terminates_witness :
    (∃ σ', transOne cycDeps .init 3 0 freshState = some σ')
    ∧ (∃ σ' i, register_plugin cycDeps 3 0 freshReg = some (σ', i)) :=
  ⟨cyclic_traversal_terminates.1 cycDeps .init 2 3 0 freshState (by decide)
    (by
      intro q hq d hd
      interval_cases q
      · simp [cycDeps] at hd; omega
      · simp [cycDeps] at hd; omega)
    (by decide),
   cyclic_traversal_terminates.2 cycDeps 2 3 0 freshReg (by decide)
    (by
      intro q hq d hd
      interval_cases q
      · simp [cycDeps] at hd; omega
      · simp [cycDeps] at hd; omega)
    (by decide)⟩

/-! ## C7: register_plugin is idempotent -/

theorem regSeq_plugins_append (regDeps : Nat → List Nat) (f : Nat)
    (hQ : ∀ t σ σ' i, register_plugin regDeps f t σ = some (σ', i) →
      ∃ Δ, σ'.plugins = σ.plugins ++ Δ) :
    ∀ ts (σ σ' : RegState), regSeq (register_plugin regDeps f) ts σ = some σ' →
      ∃ Δ, σ'.plugins = σ.plugins ++ Δ := by
  intro ts
  induction ts with
  | nil =>
    intro σ σ' h
    simp [regSeq] at h
    exact ⟨[], by simp [h]⟩
  | cons t rest ih =>
    intro σ σ' h
    simp only [regSeq] at h
    cases hc : register_plugin regDeps f t σ with
    | none => rw [hc] at h; exact absurd h (by simp)
    | some r =>
      rw [hc] at h
      obtain ⟨Δ1, hΔ1⟩ := hQ t σ r.1 r.2 (by rw [hc])
      obtain ⟨Δ2, hΔ2⟩ := ih r.1 σ' h
      exact ⟨Δ1 ++ Δ2, by rw [hΔ2, hΔ1, List.append_assoc]⟩

theorem register_plugin_plugins_append (regDeps : Nat → List Nat) :
    ∀ f t (σ σ' : RegState) (i : Nat), register_plugin regDeps f t σ = some (σ', i) →
      ∃ Δ, σ'.plugins = σ.plugins ++ Δ := by
  intro f
  induction f with
  | zero => intro t σ σ' i h; simp [register_plugin] at h
  | succ f ih =>
    intro t σ σ' i h
    simp only [register_plugin] at h
    cases hl : lookupKey σ.plugins t with
    | some j =>
      rw [hl] at h
      simp at h
      exact ⟨[], by simp [h.1]⟩
    | none =>
      rw [hl] at h
      simp only [] at h
      cases hs : regSeq (register_plugin regDeps f) (regDeps t)
          { plugins := σ.plugins ++ [(t, σ.nextId)],
            states := σ.states ++ [(t, PState.registered)],
            nextId := σ.nextId + 1 } with
      | none => rw [hs] at h; exact absurd h (by simp)
      | some σ2 =>
        rw [hs] at h
        simp at h
        obtain ⟨Δ, hΔ⟩ := regSeq_plugins_append regDeps f ih (regDeps t) _ σ2 hs
        exact ⟨(t, σ.nextId) :: Δ, by
          rw [← h.1, hΔ]
          simp⟩

theorem register_plugin_lookup (regDeps : Nat → List Nat) :
    ∀ f t (σ σ' : RegState) (i : Nat), register_plugin regDeps f t σ = some (σ', i) →
      lookupKey σ'.plugins t = some i := by
  intro f t σ σ' i h
  cases f with
  | zero => simp [register_plugin] at h
  | succ f =>
    simp only [register_plugin] at h
    cases hl : lookupKey σ.plugins t with
    | some j =>
      rw [hl] at h
      simp at h
      rw [← h.1, hl, h.2]
    | none =>
      rw [hl] at h
      cases hs : regSeq (register_plugin regDeps f) (regDeps t)
          { plugins := σ.plugins ++ [(t, σ.nextId)],
            states := σ.states ++ [(t, PState.registered)],
            nextId := σ.nextId + 1 } with
      | none => rw [hs] at h; exact absurd h (by simp)
      | some σ2 =>
        rw [hs] at h
        simp at h
        obtain ⟨Δ, hΔ⟩ := regSeq_plugins_append regDeps f
          (register_plugin_plugins_append regDeps f) (regDeps t) _ σ2 hs
        rw [← h.1, hΔ]
        simp only []
        rw [← h.2]
        have : lookupKey (σ.plugins ++ [(t, σ.nextId)]) t = some σ.nextId :=
          lookupKey_append_none_self σ.plugins t σ.nextId hl
        calc lookupKey (σ.plugins ++ [(t, σ.nextId)] ++ Δ) t
            = some σ.nextId := lookupKey_append_some _ Δ t σ.nextId this

/-- C7: a second register_plugin call for a type that was already
registered returns the identical instance (same identity i), constructs
nothing and changes nothing: the registry state, including every
plugin's lifecycle state and the allocation counter, is returned
exactly as it was. -/
theorem register_plugin_idempotent (regDeps : Nat → List Nat) (f g t : Nat)
    (σ σ' : RegState) (i : Nat) (h : register_plugin regDeps f t σ = some (σ', i)) :
    register_plugin regDeps (g + 1) t σ' = some (σ', i) := by
  have hl := register_plugin_lookup regDeps f t σ σ' i h
  simp [register_plugin, hl]

/-- Witness for register_plugin_idempotent: re-registering plugin 0 of
the cyclic pair returns the registry unchanged with the same instance. -/
theorem register_plugin_idempotent_witness :
    register_plugin cycDeps 1 0 cycRegResult = some (cycRegResult, 0) :=
  register_plugin_idempotent cycDeps 3 0 0 freshReg cycRegResult 0 (by decide)

/-! ## C8: get_method / get_channel are per-token singletons -/

/-- C8: get_method called again with the same declaration token returns
the same object and leaves the registries untouched; called with a
distinct token it returns a distinct object, even though both slots are
plain objects of the same shape; and likewise for get_channel. -/
theorem get_method_channel_singleton (σ : MCState) (h : MCWf σ) :
    (∀ t, get_method (get_method σ t).1 t = get_method σ t)
    ∧ (∀ t1 t2, t1 ≠ t2 → (get_method (get_method σ t1).1 t2).2 ≠ (get_method σ t1).2)
    ∧ (∀ t, get_channel (get_channel σ t).1 t = get_channel σ t)
    ∧ (∀ t1 t2, t1 ≠ t2 → (get_channel (get_channel σ t1).1 t2).2 ≠ (get_channel σ t1).2) := by
  obtain ⟨hbm, hnm, hbc, hnc⟩ := h
  refine ⟨fun t => ?_, fun t1 t2 hne => ?_, fun t => ?_, fun t1 t2 hne => ?_⟩
  · cases hl : lookupKey σ.methods t with
    | some m => simp [get_method, hl]
    | none =>
      have h2 := lookupKey_append_none_self σ.methods t σ.nextObj hl
      simp [get_method, hl, h2]
  · cases hl1 : lookupKey σ.methods t1 with
    | some a =>
      cases hl2 : lookupKey σ.methods t2 with
      | some b =>
        have hab := lookupKey_values_distinct σ.methods t1 t2 a b hnm hne hl1 hl2
        simp [get_method, hl1, hl2]
        exact fun hba => hab hba.symm
      | none =>
        have ha := lookupKey_lt_of_bound σ.methods σ.nextObj t1 a hbm hl1
        simp [get_method, hl1, hl2]
        omega
    | none =>
      have hl2' : lookupKey (σ.methods ++ [(t1, σ.nextObj)]) t2 = lookupKey σ.methods t2 :=
        lookupKey_append_single_ne σ.methods t2 t1 σ.nextObj (fun hh => hne hh.symm)
      cases hl2 : lookupKey σ.methods t2 with
      | some b =>
        have hb := lookupKey_lt_of_bound σ.methods σ.nextObj t2 b hbm hl2
        simp [get_method, hl1, hl2', hl2]
        omega
      | none =>
        simp [get_method, hl1, hl2', hl2]
  · cases hl : lookupKey σ.channels t with
    | some c => simp [get_channel, hl]
    | none =>
      have h2 := lookupKey_append_none_self σ.channels t σ.nextObj hl
      simp [get_channel, hl, h2]
  · cases hl1 : lookupKey σ.channels t1 with
    | some a =>
      cases hl2 : lookupKey σ.channels t2 with
      | some b =>
        have hab := lookupKey_values_distinct σ.channels t1 t2 a b hnc hne hl1 hl2
        simp [get_channel, hl1, hl2]
        exact fun hba => hab hba.symm
      | none =>
        have ha := lookupKey_lt_of_bound σ.channels σ.nextObj t1 a hbc hl1
        simp [get_channel, hl1, hl2]
        omega
    | none =>
      have hl2' : lookupKey (σ.channels ++ [(t1, σ.nextObj)]) t2 = lookupKey σ.channels t2 :=
        lookupKey_append_single_ne σ.channels t2 t1 σ.nextObj (fun hh => hne hh.symm)
      cases hl2 : lookupKey σ.channels t2 with
      | some b =>
        have hb := lookupKey_lt_of_bound σ.channels σ.nextObj t2 b hbc hl2
        simp [get_channel, hl1, hl2', hl2]
        omega
      | none =>
        simp [get_channel, hl1, hl2', hl2]

/-- Witness for get_method_channel_singleton on the fresh registries and
tokens 0 and 1. -/
theorem get_method_channel_singleton_witness :
    (get_method (get_method freshMC 0).1 0 = get_method freshMC 0)
    ∧ ((get_method (get_method freshMC 0).1 1).2 ≠ (get_method freshMC 0).2)
    ∧ (get_channel (get_channel freshMC 0).1 0 = get_channel freshMC 0)
    ∧ ((get_channel (get_channel freshMC 0).1 1).2 ≠ (get_channel freshMC 0).2) :=
  ⟨(get_method_channel_singleton freshMC (by simp [MCWf, freshMC])).1 0,
   (get_method_channel_singleton freshMC (by simp [MCWf, freshMC])).2.1 0 1 (by decide),
   (get_method_channel_singleton freshMC (by simp [MCWf, freshMC])).2.2.1 0,
   (get_method_channel_singleton freshMC (by simp [MCWf, freshMC])).2.2.2 0 1 (by decide)⟩

end Appbase
